import Mathlib

/-!
Verification development for the corestore repository.

Bytes are modelled as `List Nat`.  External cryptographic primitives
(libsodium's keyed generic hash, Ed25519 seed key pairs) are modelled as
concrete deterministic executable functions faithful to their interface
semantics; the repository's own code (seed derivation, auth resolution,
registries, trackers, replication bookkeeping) is translated directly
from the source.
-/

namespace Corestore

abbrev Bytes := List Nat

/-- Model of libsodium's keyed generic hash (BLAKE2b) on a single message:
an executable deterministic function of `(key, message)` producing a
32-byte output.  The hash internals are external to the repository; only
determinism and the (key, message) interface matter here. -/
def genericHash (key : Bytes) (msg : Bytes) : Bytes :=
  (List.range 32).map fun i =>
    (msg.foldl (fun a b => (a * 31 + b + 7) % 4294967291)
      (key.foldl (fun a b => (a * 131 + b + 13) % 4294967291) (i + 1))) % 256

/-- Model of sodium's `crypto_generichash_batch(out, bufs, key)`: per the
libsodium multi-part API it hashes the concatenation of the buffers, keyed. -/
def crypto_generichash_batch (bufs : List Bytes) (key : Bytes) : Bytes :=
  genericHash key bufs.flatten

/-- ASCII bytes of the string "corestore". -/
def corestoreAscii : Bytes := "corestore".data.map Char.toNat

/-- ASCII bytes of the string "hypercore". -/
def hypercoreAscii : Bytes := "hypercore".data.map Char.toNat

/-- Model of hypercore-crypto's `namespace(name, count)`: `count` 32-byte
outputs derived from a generic hash of the name (deterministic model of the
external library). -/
def cryptoNamespace (name : Bytes) (count : Nat) : List Bytes :=
  (List.range count).map fun i => genericHash [] (genericHash [] name ++ [i])

/-- `const [NS] = crypto.namespace('corestore', 1)` (part_006 line 9). -/
def NS : Bytes := (cryptoNamespace corestoreAscii 1).headD []

/-- `const DEFAULT_NAMESPACE = b4a.alloc(32)` — 32 zero bytes. -/
def DEFAULT_NAMESPACE : Bytes := List.replicate 32 0

structure KeyPair where
  publicKey : Bytes
  secretKey : Bytes
deriving Repr, DecidableEq

/-- Model of sodium's `crypto_sign_seed_keypair`: a deterministic function
of the seed (in libsodium the secret key is seed ‖ public key). -/
def crypto_sign_seed_keypair (seed : Bytes) : KeyPair :=
  let pk := genericHash seed [0]
  { publicKey := pk, secretKey := seed ++ pk }

/-- `deriveSeed(primaryKey, namespace, name)` (part_006 lines 452–457):
keyed batch hash of `[NS, namespace, name]` with key `primaryKey`. -/
def deriveSeed (primaryKey : Bytes) (ns : Bytes) (name : Bytes) : Bytes :=
  crypto_generichash_batch [NS, ns, name] primaryKey

/-- `createKeyPair(primaryKey, namespace, name)` (part_006 lines 459–468). -/
def createKeyPair (primaryKey : Bytes) (ns : Bytes) (name : Bytes) : KeyPair :=
  crypto_sign_seed_keypair (deriveSeed primaryKey ns name)

/-- `generateNamespace(namespace, name)` (part_006 lines 445–450):
unkeyed batch hash of `[namespace, name]`. -/
def generateNamespace (ns : Bytes) (name : Bytes) : Bytes :=
  crypto_generichash_batch [ns, name] []

/-! ## Root open / seed persistence (part_006 lines 194–217)

`_getOrSetSeed` reads the persisted seed; if absent it persists
`this.primaryKey || randomBytes(32)`.  `_open` (root path) then adopts the
seed when no caller key was supplied, and otherwise requires equality. -/

/-- `_getOrSetSeed` (part_006 lines 194–198), with the persisted slot and
the random bytes made explicit arguments. -/
def getOrSetSeed (persisted : Option Bytes) (callerPk : Option Bytes)
    (fresh : Bytes) : Bytes :=
  match persisted with
  | some seed => seed
  | none => callerPk.getD fresh

/-- Root branch of `Corestore._open` (part_006 lines 200–217): returns the
store's resulting `primaryKey` or the conflicting-seed error. -/
def rootOpen (persisted : Option Bytes) (callerPk : Option Bytes)
    (fresh : Bytes) : Except String Bytes :=
  let primaryKey := getOrSetSeed persisted callerPk fresh
  match callerPk with
  | none => .ok primaryKey
  | some pk =>
    if primaryKey = pk then .ok pk
    else .error "Another corestore is stored here"

/-! ## Engine and identity primitives consumed by part_006 -/

/-- Model of `ID.decode` (hypercore-id-encoding): on an already-decoded
byte buffer it is the identity. -/
def idDecode (k : Bytes) : Bytes := k

/-- `toHex(discoveryKey)` (part_006 lines 472–474): hex encoding of bytes
is injective, so it is modelled as the identity on byte lists. -/
def toHex (discoveryKey : Bytes) : Bytes := discoveryKey

structure Signer where
  publicKey : Bytes
deriving Repr, DecidableEq

/-- The manifest shape built by `_auth`: `{ version, signers: [...] }`. -/
structure Manifest where
  version : Nat
  signers : List Signer
deriving Repr, DecidableEq

/-- Model of the external engine's `Hypercore.key(manifest)`: a
deterministic 32-byte function of the manifest. -/
def hypercoreKey (m : Manifest) : Bytes :=
  genericHash [] (m.version :: (m.signers.map Signer.publicKey).flatten)

/-- Model of hypercore-crypto's `discoveryKey(key)`: the generic hash of
the ASCII string "hypercore" keyed with `key`. -/
def discoveryKeyOf (key : Bytes) : Bytes :=
  genericHash key hypercoreAscii

/-- Model of an engine core object (`Hypercore.createCore`) as held in the
registry, with the fields part_006 reads and writes: identity (`cid`, an
allocation counter standing for JS object identity), the auth material it
was created with, the `createIfMissing` flag it was opened with, the
`opened`/`closing` lifecycle flags, and the replicator state
(`downloading` flag and the set of muxers it is attached to). -/
structure Core where
  cid : Nat
  discoveryKey : Bytes
  key : Option Bytes
  keyPair : Option KeyPair
  manifest : Option Manifest
  createIfMissing : Bool
  opened : Bool
  closing : Bool
  downloading : Bool
  attachedTo : List Nat
  closed : Bool := false
deriving Repr, DecidableEq

/-- `CoreTracker.get` (part_006 lines 101–105): first-match lookup in the
insertion-ordered map. -/
def trackerGet (m : List (Bytes × Core)) (id : Bytes) : Option Core :=
  match m with
  | [] => none
  | (k, c) :: rest => if k = id then some c else trackerGet rest id

/-- Options recognized by `get`/`_auth`/`_getCore` (part_006).  A field is
`none` when the option is absent (or JS-falsy).  Pass-through engine
options that no claim depends on are omitted. -/
structure GetOpts where
  name : Option Bytes := none
  keyPair : Option KeyPair := none
  manifest : Option Manifest := none
  key : Option Bytes := none
  discoveryKey : Option Bytes := none
  createIfMissing : Bool := true
deriving Repr, DecidableEq

/-- The resolved auth record produced by `_auth` (part_006 lines 364–394).
`discoveryKey` is always set on success (the code throws otherwise). -/
structure Auth where
  keyPair : Option KeyPair
  key : Option Bytes
  discoveryKey : Bytes
  manifest : Option Manifest
deriving Repr, DecidableEq

/-- The part of a Corestore's state the registry- and replication-level
claims depend on: key material, the shared core registry (`this.cores`),
the allocation counter modelling object identities, the storage contents
(`Storage.has`), the closing flag, and the stream tracker records'
muxers. -/
structure Store where
  primaryKey : Bytes
  ns : Bytes
  cores : List (Bytes × Core)
  nextId : Nat
  storageHas : List Bytes
  closing : Bool
deriving Repr, DecidableEq

/-- `Corestore._auth(discoveryKey, opts)` (part_006 lines 364–394),
translated clause for clause: `name` beats `keyPair` for the key pair; an
explicit manifest beats the derived single-signer manifest, which is only
built when a key pair is present and no `discoveryKey` argument was
passed; an explicit `key` beats the manifest-derived key; the
`discoveryKey` argument beats `opts.discoveryKey` beats the key-derived
discovery key; with nothing left the missing-identity error is thrown. -/
def Store.auth (st : Store) (discoveryKey : Option Bytes) (opts : GetOpts) :
    Except String Auth :=
  let keyPair : Option KeyPair :=
    match opts.name with
    | some n => some (createKeyPair st.primaryKey st.ns n)
    | none => opts.keyPair
  let manifest : Option Manifest :=
    match opts.manifest with
    | some m => some m
    | none =>
      match keyPair, discoveryKey with
      | some kp, none => some { version := 1, signers := [{ publicKey := kp.publicKey }] }
      | _, _ => none
  let key : Option Bytes :=
    match opts.key with
    | some k => some (idDecode k)
    | none => manifest.map hypercoreKey
  match discoveryKey with
  | some dk => .ok { keyPair := keyPair, key := key, discoveryKey := dk, manifest := manifest }
  | none =>
    match opts.discoveryKey with
    | some dk =>
      .ok { keyPair := keyPair, key := key, discoveryKey := idDecode dk, manifest := manifest }
    | none =>
      match key with
      | some k =>
        .ok { keyPair := keyPair, key := some k, discoveryKey := discoveryKeyOf k, manifest := manifest }
      | none => .error "Could not derive discovery from input"

/-- `Corestore._getCore(discoveryKey, opts)` (part_006 lines 400–436):
resolve auth, look the discovery key up in the registry and reuse the
existing core if present; otherwise create the engine core (not yet
opened) with the resolved auth material and insert it.  Threading of the
error from `_auth` replaces the JS throw. -/
def Store.getCore (st : Store) (discoveryKey : Option Bytes) (opts : GetOpts) :
    Except String (Core × Store) :=
  match st.auth discoveryKey opts with
  | .error e => .error e
  | .ok a =>
    let id := toHex a.discoveryKey
    match trackerGet st.cores id with
    | some existing => .ok (existing, st)
    | none =>
      let core : Core :=
        { cid := st.nextId
          discoveryKey := a.discoveryKey
          key := a.key
          keyPair := a.keyPair
          manifest := a.manifest
          createIfMissing := opts.createIfMissing
          opened := false
          closing := false
          downloading := false
          attachedTo := [] }
      .ok (core, { st with cores := st.cores ++ [(id, core)], nextId := st.nextId + 1 })

/-! ## Concrete states used by the C2 witness -/

def c2wOpts : GetOpts := { key := some [1, 2, 3] }

def c2wStore : Store :=
  { primaryKey := [7], ns := DEFAULT_NAMESPACE, cores := [], nextId := 0,
    storageHas := [], closing := false }

def c2wAuth : Auth :=
  { keyPair := none, key := some [1, 2, 3],
    discoveryKey := discoveryKeyOf [1, 2, 3], manifest := none }

def c2wCore : Core :=
  { cid := 0, discoveryKey := discoveryKeyOf [1, 2, 3], key := some [1, 2, 3],
    keyPair := none, manifest := none, createIfMissing := true,
    opened := false, closing := false, downloading := false, attachedTo := [] }

def c2wStore1 : Store :=
  { c2wStore with cores := [(discoveryKeyOf [1, 2, 3], c2wCore)], nextId := 1 }

/-- The single-signer manifest `_auth` builds over the key pair derived
from `(primaryKey, ns, name)` (part_006 line 381). -/
def authManifestFor (st : Store) (n : Bytes) : Manifest :=
  { version := 1,
    signers := [{ publicKey := (createKeyPair st.primaryKey st.ns n).publicKey }] }

/-! ## Concrete state used by the C4 counterexample -/

def c4xStore : Store :=
  { primaryKey := [7], ns := DEFAULT_NAMESPACE, cores := [], nextId := 0,
    storageHas := [], closing := false }

def c4xOpts : GetOpts := { name := some [10], key := some [5] }

/-! ## Stream tracker (part_006 lines 12–44)

A record is `{ index, stream, isExternal }`; `rid` stands for the JS
object identity of the record, `muxer` for `stream.noiseStream.userData`. -/

structure STRec where
  rid : Nat
  index : Nat
  muxer : Nat
  isExternal : Bool
deriving Repr, DecidableEq

/-- `StreamTracker.add(stream, isExternal)` (part_006 lines 17–21): builds
the record with `index: 0` and pushes it. -/
def stAdd (records : List STRec) (rid : Nat) (muxer : Nat) (isExternal : Bool) :
    List STRec × STRec :=
  let record : STRec := { rid := rid, index := 0, muxer := muxer, isExternal := isExternal }
  (records ++ [record], record)

/-- `StreamTracker.remove(record)` (part_006 lines 23–27): pop the tail;
if the popped record is the argument, done; otherwise copy the argument's
`index` into the popped record and store it at that position.  Records are
compared by identity (`rid`); a pop from an empty list cannot occur since
`remove` is only called with a previously added record. -/
def stRemove (records : List STRec) (record : STRec) : List STRec :=
  match records.getLast? with
  | none => records
  | some popped =>
    let rest := records.dropLast
    if popped.rid = record.rid then rest
    else rest.set record.index { popped with index := record.index }

/-- `StreamTracker.attachAll(core)` (part_006 lines 29–35): walk the
records in order and attach the core's replicator to each record's muxer
unless already attached.  This is also the `ondownloading` hook installed
in `_getCore` (part_006 lines 430–432). -/
def attachAll (records : List STRec) (core : Core) : Core :=
  records.foldl
    (fun c r => if r.muxer ∈ c.attachedTo then c
                else { c with attachedTo := r.muxer :: c.attachedTo })
    core

/-- The per-core step of the initial replication burst
(part_006 lines 275–278): skip when not downloading, already attached, or
not opened; otherwise attach to the stream's muxer. -/
def burstStep (muxer : Nat) (p : Bytes × Core) : Bytes × Core :=
  if p.2.downloading = false ∨ muxer ∈ p.2.attachedTo ∨ p.2.opened = false then p
  else (p.1, { p.2 with attachedTo := muxer :: p.2.attachedTo })

/-- The initial burst of `replicate` (part_006 lines 270–281): when the
registry is non-empty, cork the muxer and attach every eligible core (the
guard only gates the cork; iterating an empty registry is a no-op). -/
def burstAttach (cores : List (Bytes × Core)) (muxer : Nat) : List (Bytes × Core) :=
  if cores.length > 0 then cores.map (burstStep muxer) else cores

/-! ## Concrete states used by the C7 counterexample and the C8 bug -/

def c7xCore : Core :=
  { cid := 0, discoveryKey := [9], key := none, keyPair := none,
    manifest := none, createIfMissing := true, opened := true,
    closing := true, downloading := true, attachedTo := [] }

/-- A stream-tracker record as `add` builds it: `index` is always 0. -/
def c8rec (n : Nat) : STRec :=
  { rid := n, index := 0, muxer := 0, isExternal := false }

/-! ## Concrete states used by the C7 witness -/

def c7wDownCore : Core :=
  { cid := 1, discoveryKey := [8], key := none, keyPair := none,
    manifest := none, createIfMissing := true, opened := true,
    closing := false, downloading := true, attachedTo := [] }

def c7wIdleCore : Core :=
  { cid := 2, discoveryKey := [8], key := none, keyPair := none,
    manifest := none, createIfMissing := true, opened := true,
    closing := false, downloading := false, attachedTo := [] }

def c7wRec : STRec :=
  { rid := 3, index := 0, muxer := 4, isExternal := false }

/-! ## Finding-peers counter (index.js lines 54–89)

`_findingPeersCount` is a JS number (modelled as `Int`); `_findingPeers`
holds the tokens acquired from sessions (`core.findingPeers()` results,
modelled by session ids); `released` records every token that has been
popped and invoked, making the 1→0 release observable. -/

structure FPStore where
  findingPeersCount : Int
  findingPeers : List Nat
  sessions : List Nat
  released : List Nat
deriving Repr, DecidableEq

/-- `_incFindingPeers` (index.js lines 75–81): pre-increment; only when the
new count is 1 do all existing sessions acquire tokens. -/
def incFindingPeers (st : FPStore) : FPStore :=
  let st1 := { st with findingPeersCount := st.findingPeersCount + 1 }
  if st1.findingPeersCount ≠ 1 then st1
  else { st1 with findingPeers := st1.findingPeers ++ st1.sessions }

/-- `_decFindingPeers` (index.js lines 83–89): pre-decrement; only when the
new count is 0 are all tokens popped and released. -/
def decFindingPeers (st : FPStore) : FPStore :=
  let st1 := { st with findingPeersCount := st.findingPeersCount - 1 }
  if st1.findingPeersCount ≠ 0 then st1
  else { st1 with
         findingPeers := []
         released := st1.released ++ st1.findingPeers.reverse }

/-- `findingPeers()` (index.js lines 54–63): increment and return the
release handle; the `Bool` models the closure's `done` flag (false at
creation). -/
def findingPeers (st : FPStore) : FPStore × Bool :=
  (incFindingPeers st, false)

/-- Invoking the release handle returned by `findingPeers()`: a no-op once
`done` is set; otherwise sets `done` and decrements. -/
def releaseHandle : FPStore × Bool → FPStore × Bool
  | (st, true) => (st, true)
  | (st, false) => (decFindingPeers st, true)

/-! ## Replication on-demand open (part_006 lines 243–268) -/

/-- In-place mutation of the core object a registry entry refers to: the
JS Map holds a reference, so mutating the core is modelled by replacing
the entry's value. -/
def setCore (cores : List (Bytes × Core)) (id : Bytes) (c : Core) :
    List (Bytes × Core) :=
  cores.map fun p => if p.1 = id then (p.1, c) else p

/-- `if (!core.opened) await core.ready()` (part_006 line 250): afterwards
the core object is opened. -/
def readyCore (c : Core) : Core :=
  if c.opened then c else { c with opened := true }

/-- `if (!core.replicator.attached(muxer)) core.replicator.attachTo(muxer)`
(part_006 lines 252–254), with the mutation written back to the registry
entry holding `core1`. -/
def attachCore (muxer : Nat) (st2 : Store) (dk : Bytes) (core1 : Core) : Store :=
  if muxer ∈ core1.attachedTo then st2
  else
    let core2 := { core1 with attachedTo := muxer :: core1.attachedTo }
    { st2 with cores := setCore st2.cores (toHex dk) core2 }

/-- `Corestore._attachMaybe(muxer, discoveryKey)` (part_006 lines 243–255):
return unchanged when the discovery key is neither registered nor present
in storage; otherwise open via `_getCore` with `createIfMissing: false`,
await ready (the engine marks the core opened), and attach the core's
replicator to the muxer unless already attached.  The await of the store's
own `ready()` at entry does not change the modelled state. -/
def Store.attachMaybe (st : Store) (muxer : Nat) (dk : Bytes) : Store :=
  if trackerGet st.cores (toHex dk) = none ∧ dk ∉ st.storageHas then st
  else
    match st.getCore (some dk) { createIfMissing := false } with
    | .error _ => st
    | .ok (core, st1) =>
      let core1 := readyCore core
      attachCore muxer { st1 with cores := setCore st1.cores (toHex dk) core1 }
        dk core1

/-- The `ondiscoverykey` callback installed by `replicate`
(part_006 lines 262–267): a no-op while the store is closing, otherwise
`_attachMaybe` on the stream's muxer. -/
def Store.ondiscoverykey (st : Store) (muxer : Nat) (dk : Bytes) : Store :=
  if st.closing then st else st.attachMaybe muxer dk

/-! ## Concrete states used by the C6 witness -/

def c6wClosingSt : Store :=
  { primaryKey := [7], ns := DEFAULT_NAMESPACE, cores := [], nextId := 0,
    storageHas := [], closing := true }

def c6wSt : Store :=
  { primaryKey := [7], ns := DEFAULT_NAMESPACE, cores := [], nextId := 0,
    storageHas := [[1]], closing := false }

/-! ## Concrete state used by the C9 witness -/

def c9wStore : FPStore :=
  { findingPeersCount := 0, findingPeers := [], sessions := [4, 5],
    released := [] }

def c9wStore2 : FPStore :=
  { findingPeersCount := 2, findingPeers := [9], sessions := [4],
    released := [] }

/-! ## Close ordering (part_006 lines 219–241) -/

/-- A session handle tracked by a store's `SessionTracker`. -/
structure Sess where
  sid : Nat
  closed : Bool
deriving Repr, DecidableEq

/-- A child store: its identity, its own tracked sessions, and whether it
has reached the closed state. -/
structure ChildStore where
  stid : Nat
  sessions : List Sess
  closed : Bool
deriving Repr, DecidableEq

/-- Observable close events, in the order they are issued. -/
inductive Ev where
  | closeSess (owner : Nat) (sid : Nat)
  | closeCore (cid : Nat)
  | closeStorage
deriving Repr, DecidableEq

def Ev.isSess : Ev → Bool
  | .closeSess _ _ => true
  | _ => false

def Ev.isCore : Ev → Bool
  | .closeCore _ => true
  | _ => false

/-- Root-store state for the close protocol: the root's own sessions, the
registered child stores (`this.corestores`), the core registry, the cores
that have reached closed, and the storage flag. -/
structure RootState where
  rootSessions : List Sess
  children : List ChildStore
  cores : List (Bytes × Core)
  closedCores : List Core
  storageClosed : Bool
deriving Repr, DecidableEq

/-- Closing every session a store tracks (`for (const sess of hanging)
closing.push(sess.close())`, part_006 lines 221–222). -/
def closeSessions (owner : Nat) (ss : List Sess) : List Sess × List Ev :=
  (ss.map fun s => { s with closed := true },
   ss.map fun s => Ev.closeSess owner s.sid)

/-- `Corestore._close` on a child store (part_006 lines 219–229): close
every session this store tracks, then return — no cores, no storage. -/
def childClose (c : ChildStore) : ChildStore × List Ev :=
  ({ c with sessions := (closeSessions c.stid c.sessions).1, closed := true },
   (closeSessions c.stid c.sessions).2)

/-- Closing one registry entry's core during root close.  The engine is
external; modelled from the spec's engine contract (§6) together with the
onidle handler installed in `_getCore` (part_006 lines 425–428): a core
whose sessions are gone is destroyed and its entry deleted from the
registry, so the closed core leaves the registry and reaches `closed`. -/
def closeCoreEntry (p : Bytes × Core) : Core :=
  { p.2 with closing := true, closed := true }

/-- `Corestore._close` on the root (part_006 lines 219–241): phase 1
closes this store's own sessions and every registered child store (awaited
together), phase 2 closes every core in the registry (emptying it via the
onidle handlers), phase 3 closes the storage. -/
def rootClose (rootSid : Nat) (r : RootState) : RootState × List Ev :=
  let ownEvs := (closeSessions rootSid r.rootSessions).2
  let childResults := r.children.map childClose
  let phase1 := ownEvs ++ (childResults.map Prod.snd).flatten
  let coreEvs := r.cores.map fun p => Ev.closeCore p.2.cid
  ({ rootSessions := (closeSessions rootSid r.rootSessions).1
     children := childResults.map Prod.fst
     cores := []
     closedCores := r.cores.map closeCoreEntry
     storageClosed := true },
   phase1 ++ coreEvs ++ [Ev.closeStorage])

/-! ## Concrete state used by the C5 witness -/

def c5wCore : Core :=
  { cid := 6, discoveryKey := [1], key := none, keyPair := none,
    manifest := none, createIfMissing := true, opened := true,
    closing := false, downloading := false, attachedTo := [] }

def c5w : RootState :=
  { rootSessions := [{ sid := 1, closed := false }],
    children := [{ stid := 2, sessions := [{ sid := 3, closed := false }],
                   closed := false }],
    cores := [([1], c5wCore)], closedCores := [], storageClosed := false }

/-! ## Core-tracker watcher registration (part_006 lines 89–99, 156–174)

Stores are identified by a `Nat`; `widx` gives each store's mutable
`watchIndex` field (−1 when not registered). -/

structure CTState where
  watching : List Nat
  widx : Nat → Int

/-- `CoreTracker.watch(store)` (part_006 lines 89–92): a no-op when the
store's `watchIndex` is not −1; otherwise push and record the index
(`push` returns the new length, minus one gives the insertion position). -/
def ctWatch (st : CTState) (s : Nat) : CTState :=
  if st.widx s ≠ -1 then st
  else
    { watching := st.watching ++ [s]
      widx := fun t => if t = s then (st.watching.length : Int) else st.widx t }

/-- `CoreTracker.unwatch(store)` (part_006 lines 94–99): a no-op when the
store's `watchIndex` is −1; otherwise pop the tail; when the popped store
is not the one removed, move it into the removed store's slot and give it
that index; finally reset the removed store's index to −1.  (The pop of an
empty array cannot occur: the index is not −1 only for registered
stores.) -/
def ctUnwatch (st : CTState) (s : Nat) : CTState :=
  if st.widx s = -1 then st
  else
    match st.watching.getLast? with
    | none => st
    | some head =>
      if head = s then
        { watching := st.watching.dropLast
          widx := fun t => if t = s then -1 else st.widx t }
      else
        { watching := st.watching.dropLast.set (st.widx s).toNat head
          widx := fun t =>
            if t = s then -1
            else if t = head then st.widx s else st.widx t }

/-- The tracker invariant: every registered store's `watchIndex` equals
its position in `watching`, and an unregistered store's is −1. -/
def CTinv (st : CTState) : Prop :=
  (∀ (i : Nat) (hi : i < st.watching.length), st.widx st.watching[i] = (i : Int)) ∧
  ∀ s : Nat, s ∉ st.watching → st.widx s = -1

/-- `Corestore.watch(fn)` (part_006 lines 156–163): on the first callback
create the watcher set and register with the tracker; afterwards just add
(the JS `Set` ignores duplicates). -/
def storeWatch (tr : CTState) (watchers : Option (List Nat)) (sid : Nat)
    (fn : Nat) : CTState × Option (List Nat) :=
  match watchers with
  | none => (ctWatch tr sid, some [fn])
  | some ws => (tr, some (if fn ∈ ws then ws else ws ++ [fn]))

/-- `Corestore.unwatch(fn)` (part_006 lines 165–174): a no-op with no
watcher set; otherwise drop the callback, and when the set becomes empty
clear it and deregister from the tracker. -/
def storeUnwatch (tr : CTState) (watchers : Option (List Nat)) (sid : Nat)
    (fn : Nat) : CTState × Option (List Nat) :=
  match watchers with
  | none => (tr, none)
  | some ws =>
    let ws2 := ws.erase fn
    if ws2.isEmpty then (ctUnwatch tr sid, none)
    else (tr, some ws2)

/-! ## Concrete state used by the C10 witness -/

def c10wTr : CTState :=
  { watching := [0, 1, 2], widx := fun t => if t < 3 then (t : Int) else -1 }

end Corestore

open Corestore

/-- C1: the derived seed is the keyed generic hash of `NS ‖ ns ‖ name`
under key `primary_key` (inputs length-unprefixed, in that order), and
`deriveSeed` / `createKeyPair` are deterministic: two stores with the same
primary key yield identical key pairs for identical `(ns, name)`. -/
theorem c1_deriveSeed_spec (pk1 pk2 ns name : Bytes) (hpk : pk1 = pk2) :
    deriveSeed pk1 ns name = genericHash pk1 (NS ++ ns ++ name) ∧
    deriveSeed pk1 ns name = deriveSeed pk2 ns name ∧
    createKeyPair pk1 ns name = createKeyPair pk2 ns name := by
  subst hpk
  refine ⟨?_, rfl, rfl⟩
  simp [deriveSeed, crypto_generichash_batch, List.flatten, List.append_assoc]

/-- Witness for C1 at a concrete input. -/
theorem c1_witness :
    deriveSeed [1, 2] [3] [4, 5] = genericHash [1, 2] (NS ++ [3] ++ [4, 5]) ∧
    deriveSeed [1, 2] [3] [4, 5] = deriveSeed [1, 2] [3] [4, 5] ∧
    createKeyPair [1, 2] [3] [4, 5] = createKeyPair [1, 2] [3] [4, 5] :=
  c1_deriveSeed_spec [1, 2] [1, 2] [3] [4, 5] rfl

/-- C3: opening a root store on storage holding a persisted seed fails with
the conflicting-seed error when the caller supplies a different primary
key, and adopts the persisted seed unchanged when the caller supplies
none. -/
theorem c3_conflicting_seed (s pk fresh : Bytes) (_hlen : s.length = 32)
    (hne : pk ≠ s) :
    rootOpen (some s) (some pk) fresh = .error "Another corestore is stored here" ∧
    rootOpen (some s) none fresh = .ok s := by
  constructor
  · simp only [rootOpen, getOrSetSeed]
    rw [if_neg (fun h => hne h.symm)]
  · rfl

/-- Witness for C3 at a concrete input. -/
theorem c3_witness :
    rootOpen (some (List.replicate 32 1)) (some (List.replicate 32 2))
        (List.replicate 32 9) = .error "Another corestore is stored here" ∧
    rootOpen (some (List.replicate 32 1)) none (List.replicate 32 9)
        = .ok (List.replicate 32 1) :=
  c3_conflicting_seed (List.replicate 32 1) (List.replicate 32 2)
    (List.replicate 32 9) (by decide) (by decide)

/-- Helper: appending a fresh binding to a registry that does not yet hold
the id makes the lookup find it. -/
theorem trackerGet_append_self (m : List (Bytes × Core)) (id : Bytes) (c : Core)
    (h : trackerGet m id = none) : trackerGet (m ++ [(id, c)]) id = some c := by
  induction m with
  | nil => simp [trackerGet]
  | cons p rest ih =>
    obtain ⟨k, c'⟩ := p
    simp only [trackerGet, List.cons_append] at h ⊢
    split at h
    · exact absurd h (by simp)
    · next hk => rw [if_neg hk]; exact ih h

/-- C2: two `get` calls whose auth resolves to the same discovery key share
a single underlying `Core` object (hence the same key), the second call
inserts nothing into the registry, and any single `get` grows the registry
by at most one entry. -/
theorem c2_registry_dedup (st : Store) (dk1 dk2 : Option Bytes)
    (o1 o2 : GetOpts) (a1 a2 : Auth) (c1 c2 : Core) (st1 st2 : Store)
    (ha1 : st.auth dk1 o1 = .ok a1) (ha2 : st1.auth dk2 o2 = .ok a2)
    (hdk : a2.discoveryKey = a1.discoveryKey)
    (h1 : st.getCore dk1 o1 = .ok (c1, st1))
    (h2 : st1.getCore dk2 o2 = .ok (c2, st2)) :
    c2 = c1 ∧ c2.key = c1.key ∧ st2 = st1 ∧
    st1.cores.length ≤ st.cores.length + 1 := by
  have key1 : trackerGet st1.cores (toHex a1.discoveryKey) = some c1 ∧
      st1.cores.length ≤ st.cores.length + 1 := by
    simp only [Store.getCore, ha1] at h1
    cases hfind : trackerGet st.cores (toHex a1.discoveryKey) with
    | some ex =>
      rw [hfind] at h1
      simp only [Except.ok.injEq, Prod.mk.injEq] at h1
      obtain ⟨hc, hst⟩ := h1
      subst hc; subst hst
      exact ⟨hfind, Nat.le_succ _⟩
    | none =>
      rw [hfind] at h1
      simp only [Except.ok.injEq, Prod.mk.injEq] at h1
      obtain ⟨hc, hst⟩ := h1
      subst hst
      constructor
      · simpa [hc] using trackerGet_append_self _ _ _ hfind
      · simp
  simp only [Store.getCore, ha2, hdk, key1.1] at h2
  simp only [Except.ok.injEq, Prod.mk.injEq] at h2
  obtain ⟨hc, hst⟩ := h2
  exact ⟨hc.symm, by rw [hc], hst.symm, key1.2⟩

/-- Witness for C2: a concrete store, two successive gets by the same key. -/
theorem c2_witness :
    c2wCore = c2wCore ∧ c2wCore.key = c2wCore.key ∧ c2wStore1 = c2wStore1 ∧
    c2wStore1.cores.length ≤ c2wStore.cores.length + 1 :=
  c2_registry_dedup c2wStore none none c2wOpts c2wOpts c2wAuth c2wAuth
    c2wCore c2wCore c2wStore1 c2wStore1 rfl rfl rfl rfl rfl

/-- C4 (amended): the auth resolver derives the key pair with precedence
name over key_pair; with `name` present and no explicit manifest, key or
discovery key, the single-signer manifest over the derived public key
determines `key` and `discovery_key`; with only `key` present the manifest
is left unset; with none of name, key pair, manifest, key or discovery key
the resolver fails with the missing-identity error. -/
theorem c4_auth_precedence (st : Store) (n k : Bytes) (kp2 : KeyPair) :
    st.auth none { name := some n } =
      .ok { keyPair := some (createKeyPair st.primaryKey st.ns n),
            key := some (hypercoreKey (authManifestFor st n)),
            discoveryKey := discoveryKeyOf (hypercoreKey (authManifestFor st n)),
            manifest := some (authManifestFor st n) } ∧
    st.auth none { name := some n, keyPair := some kp2 } =
      st.auth none { name := some n } ∧
    st.auth none { key := some k } =
      .ok { keyPair := none, key := some k,
            discoveryKey := discoveryKeyOf k, manifest := none } ∧
    st.auth none {} = .error "Could not derive discovery from input" :=
  ⟨rfl, rfl, rfl, rfl⟩

/-- Helper: the modelled generic hash always yields 32 bytes. -/
theorem genericHash_length (k m : Bytes) : (genericHash k m).length = 32 := by
  simp [genericHash]

/-- Counterexample to C4 as stated: with both `name` and `key` supplied the
key pair is derived from the name, yet the resulting `key` is the supplied
one, not the one determined by the single-signer manifest. -/
theorem c4_counterexample :
    Except.map Auth.key (c4xStore.auth none c4xOpts) = .ok (some [5]) ∧
    Except.map Auth.keyPair (c4xStore.auth none c4xOpts) =
      .ok (some (createKeyPair c4xStore.primaryKey c4xStore.ns [10])) ∧
    some [5] ≠ some (hypercoreKey (authManifestFor c4xStore [10])) := by
  refine ⟨rfl, rfl, ?_⟩
  intro h
  have h2 : ([5] : Bytes) = hypercoreKey (authManifestFor c4xStore [10]) := by
    injection h
  have h3 := congrArg List.length h2
  simp [hypercoreKey, genericHash_length] at h3

/-- Helper: attachment to a muxer survives `attachAll`. -/
theorem attachAll_preserves (records : List STRec) (core : Core) (x : Nat)
    (h : x ∈ core.attachedTo) : x ∈ (attachAll records core).attachedTo := by
  induction records generalizing core with
  | nil => simpa [attachAll] using h
  | cons r rest ih =>
    have hstep : attachAll (r :: rest) core = attachAll rest
        (if r.muxer ∈ core.attachedTo then core
         else { core with attachedTo := r.muxer :: core.attachedTo }) := rfl
    rw [hstep]
    split
    · exact ih core h
    · exact ih _ (List.mem_cons_of_mem _ h)

/-- Helper: `attachAll` attaches the core to every tracked stream's muxer. -/
theorem attachAll_attaches (records : List STRec) (core : Core) :
    ∀ r ∈ records, r.muxer ∈ (attachAll records core).attachedTo := by
  induction records generalizing core with
  | nil => intro r hr; cases hr
  | cons q rest ih =>
    intro r hr
    have hstep : attachAll (q :: rest) core = attachAll rest
        (if q.muxer ∈ core.attachedTo then core
         else { core with attachedTo := q.muxer :: core.attachedTo }) := rfl
    rw [hstep]
    rcases List.mem_cons.mp hr with rfl | hr2
    · apply attachAll_preserves
      split
      · next hq => exact hq
      · exact List.mem_cons_self _ _
    · split
      · exact ih core r hr2
      · exact ih _ r hr2

/-- C7 (amended): the initial burst of `replicate` maps `burstStep` over
the whole registry; `burstStep` leaves a core attached to the muxer
exactly when it was already attached or is downloading and opened (the
code does not consult the `closing` flag); a core whose downloading flag
is false is never touched; and the `ondownloading` hook (`attachAll`)
attaches a core to every tracked stream's muxer. -/
theorem c7_replication_attachment (cores : List (Bytes × Core)) (muxer : Nat)
    (records : List STRec) (core : Core) :
    burstAttach cores muxer = cores.map (burstStep muxer) ∧
    (∀ p : Bytes × Core,
      (muxer ∈ (burstStep muxer p).2.attachedTo ↔
        muxer ∈ p.2.attachedTo ∨ (p.2.downloading = true ∧ p.2.opened = true)) ∧
      (p.2.downloading = false → burstStep muxer p = p)) ∧
    (∀ r ∈ records, r.muxer ∈ (attachAll records core).attachedTo) := by
  refine ⟨?_, ?_, attachAll_attaches records core⟩
  · cases cores <;> simp [burstAttach]
  · intro p
    constructor
    · by_cases h2 : muxer ∈ p.2.attachedTo
      · unfold burstStep
        rw [if_pos (Or.inr (Or.inl h2))]
        exact ⟨fun _ => Or.inl h2, fun _ => h2⟩
      · by_cases h1 : p.2.downloading = false
        · unfold burstStep
          rw [if_pos (Or.inl h1)]
          refine ⟨fun hm => absurd hm h2, ?_⟩
          rintro (hm | ⟨hd, _⟩)
          · exact hm
          · rw [hd] at h1; cases h1
        · by_cases h3 : p.2.opened = false
          · unfold burstStep
            rw [if_pos (Or.inr (Or.inr h3))]
            refine ⟨fun hm => absurd hm h2, ?_⟩
            rintro (hm | ⟨_, ho⟩)
            · exact hm
            · rw [ho] at h3; cases h3
          · unfold burstStep
            rw [if_neg (by simp [h1, h2, h3])]
            constructor
            · intro _
              exact Or.inr ⟨by simpa using h1, by simpa using h3⟩
            · intro _
              exact List.mem_cons_self _ _
    · intro hd
      unfold burstStep
      rw [if_pos (Or.inl hd)]

/-- Counterexample to C7 as stated: a core that is opened, downloading and
also closing is attached by the initial burst, though the claim says only
non-closing cores are attached. -/
theorem c7_counterexample :
    c7xCore.opened = true ∧ c7xCore.closing = true ∧
    c7xCore.downloading = true ∧
    burstAttach [([9], c7xCore)] 5 =
      [([9], { c7xCore with attachedTo := [5] })] := by
  refine ⟨rfl, rfl, rfl, ?_⟩
  decide

/-- Witness for C7 at concrete cores and streams. -/
theorem c7_witness :
    5 ∈ (burstStep 5 ([8], c7wDownCore)).2.attachedTo ∧
    burstStep 5 ([8], c7wIdleCore) = ([8], c7wIdleCore) ∧
    c7wRec.muxer ∈ (attachAll [c7wRec] c7wDownCore).attachedTo := by
  have h := c7_replication_attachment [] 5 [c7wRec] c7wDownCore
  exact ⟨(h.2.1 ([8], c7wDownCore)).1.mpr (Or.inr ⟨rfl, rfl⟩),
    (h.2.1 ([8], c7wIdleCore)).2 rfl,
    h.2.2 c7wRec (List.mem_singleton_self _)⟩

/-- C8: evidence of the stream-tracker bug.  `add` stores `index: 0` in
every record, so removing a middle record swap-removes the wrong slot:
after adding three records and removing the middle one, the removed record
is still present and the first record is gone. -/
theorem c8_swap_remove_bug :
    (stAdd [] 0 0 false).1 = [c8rec 0] ∧
    (stAdd [c8rec 0] 1 0 false).1 = [c8rec 0, c8rec 1] ∧
    (stAdd [c8rec 0, c8rec 1] 2 0 false).1 = [c8rec 0, c8rec 1, c8rec 2] ∧
    stRemove [c8rec 0, c8rec 1, c8rec 2] (c8rec 1) = [c8rec 2, c8rec 1] ∧
    c8rec 1 ∈ stRemove [c8rec 0, c8rec 1, c8rec 2] (c8rec 1) ∧
    c8rec 0 ∉ stRemove [c8rec 0, c8rec 1, c8rec 2] (c8rec 1) := by decide

/-- Helper: the release handle is idempotent as a function. -/
theorem releaseHandle_idem (x : FPStore × Bool) :
    releaseHandle (releaseHandle x) = releaseHandle x := by
  rcases x with ⟨st, b⟩
  cases b <;> rfl

/-- Helper: iterating the release handle once or more equals one call. -/
theorem releaseHandle_iterate (n : Nat) (hn : 1 ≤ n) :
    ∀ x, releaseHandle^[n] x = releaseHandle x := by
  induction n with
  | zero => cases hn
  | succ m ih =>
    intro x
    rcases Nat.eq_zero_or_pos m with h | h
    · subst h
      simp
    · rw [Function.iterate_succ_apply, ih h (releaseHandle x),
        releaseHandle_idem]

/-- Helper: `_incFindingPeers` at counter 0 acquires one token per session. -/
theorem incFindingPeers_zero (st : FPStore) (h0 : st.findingPeersCount = 0) :
    incFindingPeers st =
      { st with
        findingPeersCount := 1
        findingPeers := st.findingPeers ++ st.sessions } := by
  simp [incFindingPeers, h0]

/-- Helper: `_incFindingPeers` at a non-zero counter only increments. -/
theorem incFindingPeers_pos (st : FPStore) (h : st.findingPeersCount ≠ 0) :
    incFindingPeers st =
      { st with findingPeersCount := st.findingPeersCount + 1 } := by
  have h1 : st.findingPeersCount + 1 ≠ 1 := fun hh => h (by omega)
  simp [incFindingPeers, h1]

/-- Helper: `_decFindingPeers` at counter 1 pops and releases every token. -/
theorem decFindingPeers_one (st : FPStore) (h : st.findingPeersCount = 1) :
    decFindingPeers st =
      { st with
        findingPeersCount := 0
        findingPeers := []
        released := st.released ++ st.findingPeers.reverse } := by
  simp [decFindingPeers, h]

/-- Helper: `_decFindingPeers` away from 1 only decrements. -/
theorem decFindingPeers_ne (st : FPStore) (h : st.findingPeersCount - 1 ≠ 0) :
    decFindingPeers st =
      { st with findingPeersCount := st.findingPeersCount - 1 } := by
  simp [decFindingPeers, h]

/-- C9: `finding_peers()` increments the store-wide counter; its release
handle decrements exactly once no matter how many times it is invoked;
only the 0→1 transition hands a token to every existing session, and only
the 1→0 transition pops and releases every acquired token (otherwise the
increment/release pair leaves the store exactly as it was). -/
theorem c9_findingPeers (st : FPStore) (n : Nat) (hn : 1 ≤ n) :
    (findingPeers st).1.findingPeersCount = st.findingPeersCount + 1 ∧
    (st.findingPeersCount = 0 →
      (findingPeers st).1.findingPeers = st.findingPeers ++ st.sessions) ∧
    (st.findingPeersCount ≠ 0 →
      (findingPeers st).1.findingPeers = st.findingPeers) ∧
    releaseHandle^[n] (findingPeers st) = releaseHandle (findingPeers st) ∧
    (releaseHandle (findingPeers st)).1.findingPeersCount =
      st.findingPeersCount ∧
    (st.findingPeersCount = 0 →
      (releaseHandle (findingPeers st)).1.findingPeers = [] ∧
      (releaseHandle (findingPeers st)).1.released =
        st.released ++ (st.findingPeers ++ st.sessions).reverse) ∧
    (st.findingPeersCount ≠ 0 →
      (releaseHandle (findingPeers st)).1 = st) := by
  have hrel : (releaseHandle (findingPeers st)).1 =
      decFindingPeers (incFindingPeers st) := rfl
  by_cases h0 : st.findingPeersCount = 0
  · have hinc := incFindingPeers_zero st h0
    have hdec := decFindingPeers_one (incFindingPeers st) (by rw [hinc])
    refine ⟨?_, fun _ => ?_, fun hne => absurd h0 hne, ?_, ?_, fun _ => ?_,
      fun hne => absurd h0 hne⟩
    · show (incFindingPeers st).findingPeersCount = st.findingPeersCount + 1
      rw [hinc, h0]
      norm_num
    · show (incFindingPeers st).findingPeers = st.findingPeers ++ st.sessions
      rw [hinc]
    · exact releaseHandle_iterate n hn _
    · rw [hrel, hdec, hinc, h0]
    · rw [hrel, hdec, hinc]
      exact ⟨rfl, rfl⟩
  · have hinc := incFindingPeers_pos st h0
    have hdec := decFindingPeers_ne (incFindingPeers st)
      (by rw [hinc]; simpa using h0)
    refine ⟨?_, fun hz => absurd hz h0, fun _ => ?_, ?_, ?_, fun hz => absurd hz h0,
      fun _ => ?_⟩
    · show (incFindingPeers st).findingPeersCount = st.findingPeersCount + 1
      rw [hinc]
    · show (incFindingPeers st).findingPeers = st.findingPeers
      rw [hinc]
    · exact releaseHandle_iterate n hn _
    · rw [hrel, hdec, hinc]
      simp
    · rw [hrel, hdec, hinc]
      simp

/-- Witness for C9 at concrete stores (one at count 0, one at count 2). -/
theorem c9_witness :
    (findingPeers c9wStore).1.findingPeersCount =
      c9wStore.findingPeersCount + 1 ∧
    (findingPeers c9wStore).1.findingPeers =
      c9wStore.findingPeers ++ c9wStore.sessions ∧
    releaseHandle^[3] (findingPeers c9wStore) =
      releaseHandle (findingPeers c9wStore) ∧
    (releaseHandle (findingPeers c9wStore)).1.findingPeersCount =
      c9wStore.findingPeersCount ∧
    (releaseHandle (findingPeers c9wStore)).1.findingPeers = [] ∧
    (releaseHandle (findingPeers c9wStore2)).1 = c9wStore2 := by
  have h := c9_findingPeers c9wStore 3 (by decide)
  have h2 := c9_findingPeers c9wStore2 1 (by decide)
  exact ⟨h.1, h.2.1 rfl, h.2.2.2.1, h.2.2.2.2.1, (h.2.2.2.2.2.1 rfl).1,
    h2.2.2.2.2.2.2 (by decide)⟩

/-- Helper: `setCore` rewrites exactly the entry the lookup finds. -/
theorem trackerGet_setCore (m : List (Bytes × Core)) (id : Bytes) (c : Core) :
    trackerGet (setCore m id c) id = (trackerGet m id).map fun _ => c := by
  induction m with
  | nil => rfl
  | cons p rest ih =>
    obtain ⟨k, c0⟩ := p
    simp only [setCore, List.map_cons] at ih ⊢
    by_cases hk : k = id
    · subst hk
      rw [show (if ((k, c0) : Bytes × Core).1 = k then (((k, c0) : Bytes × Core).1, c) else (k, c0))
          = (k, c) from if_pos rfl]
      simp only [trackerGet, if_pos rfl]
      rfl
    · rw [show (if ((k, c0) : Bytes × Core).1 = id then (((k, c0) : Bytes × Core).1, c) else (k, c0))
          = (k, c0) from if_neg hk]
      simp only [trackerGet, if_neg hk]
      exact ih

/-- Helper: `readyCore` always yields an opened core. -/
theorem readyCore_opened (c : Core) : (readyCore c).opened = true := by
  by_cases hc : c.opened = true
  · rw [readyCore, if_pos hc]
    exact hc
  · rw [readyCore, if_neg hc]

/-- C6: the `ondiscoverykey` callback does nothing while the store is
closing; does nothing when the announced key is neither registered nor in
storage; otherwise leaves in the registry a core that is opened (with
create-if-missing disabled when it was not already registered) and
attached to the stream's muxer; and an already-opened, already-attached
core is left exactly as it was. -/
theorem c6_ondiscoverykey (st : Store) (muxer : Nat) (dk : Bytes) :
    (st.closing = true → st.ondiscoverykey muxer dk = st) ∧
    (st.closing = false → trackerGet st.cores (toHex dk) = none →
      dk ∉ st.storageHas → st.ondiscoverykey muxer dk = st) ∧
    (st.closing = false →
      (trackerGet st.cores (toHex dk) ≠ none ∨ dk ∈ st.storageHas) →
      ∃ c, trackerGet (st.ondiscoverykey muxer dk).cores (toHex dk) = some c ∧
        c.opened = true ∧ muxer ∈ c.attachedTo ∧
        (trackerGet st.cores (toHex dk) = none → c.createIfMissing = false)) ∧
    (∀ c0, st.closing = false → trackerGet st.cores (toHex dk) = some c0 →
      c0.opened = true → muxer ∈ c0.attachedTo →
      trackerGet (st.ondiscoverykey muxer dk).cores (toHex dk) = some c0) := by
  have hauth : st.auth (some dk) { createIfMissing := false } =
      .ok ⟨none, none, dk, none⟩ := rfl
  refine ⟨?_, ?_, ?_, ?_⟩
  · intro h
    simp [Store.ondiscoverykey, h]
  · intro h hnone hmem
    simp [Store.ondiscoverykey, h, Store.attachMaybe, hnone, hmem]
  · intro h hknown
    have hnc : ¬(trackerGet st.cores (toHex dk) = none ∧ dk ∉ st.storageHas) := by
      rintro ⟨hnone, hmem⟩
      rcases hknown with hk | hk
      · exact hk hnone
      · exact hmem hk
    cases hfind : trackerGet st.cores (toHex dk) with
    | some c0 =>
      have hget : st.getCore (some dk) { createIfMissing := false } =
          .ok (c0, st) := by
        simp only [Store.getCore, hauth]
        rw [hfind]
      have hred : st.ondiscoverykey muxer dk =
          attachCore muxer
            { st with cores := setCore st.cores (toHex dk) (readyCore c0) } dk
            (readyCore c0) := by
        simp only [Store.ondiscoverykey, h, if_neg Bool.false_ne_true,
          Store.attachMaybe, if_neg hnc, hget]
      rw [hred]
      have hlook : trackerGet (setCore st.cores (toHex dk) (readyCore c0))
          (toHex dk) = some (readyCore c0) := by
        rw [trackerGet_setCore, hfind]
        rfl
      by_cases hm : muxer ∈ (readyCore c0).attachedTo
      · rw [attachCore, if_pos hm]
        exact ⟨readyCore c0, hlook, readyCore_opened c0, hm,
          fun hnone => absurd hnone (by simp [hfind])⟩
      · rw [attachCore, if_neg hm]
        refine ⟨{ readyCore c0 with attachedTo := muxer :: (readyCore c0).attachedTo },
          ?_, readyCore_opened c0, List.mem_cons_self _ _,
          fun hnone => absurd hnone (by simp [hfind])⟩
        show trackerGet (setCore (setCore st.cores (toHex dk) (readyCore c0))
          (toHex dk) _) (toHex dk) = _
        rw [trackerGet_setCore, hlook]
        rfl
    | none =>
      have hget : st.getCore (some dk) { createIfMissing := false } =
          .ok (⟨st.nextId, dk, none, none, none, false, false, false, false, [], false⟩,
            { st with
              cores := st.cores ++
                [(toHex dk, ⟨st.nextId, dk, none, none, none, false, false, false, false, [], false⟩)]
              nextId := st.nextId + 1 }) := by
        simp only [Store.getCore, hauth]
        rw [hfind]
      have hready : readyCore ⟨st.nextId, dk, none, none, none, false, false, false, false, [], false⟩ =
          ⟨st.nextId, dk, none, none, none, false, true, false, false, [], false⟩ := rfl
      have hred : st.ondiscoverykey muxer dk =
          attachCore muxer
            { st with
              cores := setCore
                (st.cores ++ [(toHex dk, ⟨st.nextId, dk, none, none, none, false, false, false, false, [], false⟩)])
                (toHex dk)
                ⟨st.nextId, dk, none, none, none, false, true, false, false, [], false⟩
              nextId := st.nextId + 1 } dk
            ⟨st.nextId, dk, none, none, none, false, true, false, false, [], false⟩ := by
        simp only [Store.ondiscoverykey, h, if_neg Bool.false_ne_true,
          Store.attachMaybe, if_neg hnc, hget, hready]
      rw [hred]
      have hlook : trackerGet
          (setCore (st.cores ++ [(toHex dk, ⟨st.nextId, dk, none, none, none, false, false, false, false, [], false⟩)])
            (toHex dk) ⟨st.nextId, dk, none, none, none, false, true, false, false, [], false⟩)
          (toHex dk) =
          some ⟨st.nextId, dk, none, none, none, false, true, false, false, [], false⟩ := by
        rw [trackerGet_setCore, trackerGet_append_self _ _ _ hfind]
        rfl
      rw [attachCore, if_neg (by simp)]
      refine ⟨⟨st.nextId, dk, none, none, none, false, true, false, false, [muxer], false⟩,
        ?_, rfl, List.mem_cons_self _ _, fun _ => rfl⟩
      show trackerGet (setCore _ (toHex dk) _) (toHex dk) = _
      rw [trackerGet_setCore, hlook]
      rfl
  · intro c0 h hfind hop hm
    have hnc : ¬(trackerGet st.cores (toHex dk) = none ∧ dk ∉ st.storageHas) := by
      rintro ⟨hnone, _⟩
      rw [hfind] at hnone
      cases hnone
    have hget : st.getCore (some dk) { createIfMissing := false } =
        .ok (c0, st) := by
      simp only [Store.getCore, hauth]
      rw [hfind]
    have hready : readyCore c0 = c0 := by
      rw [readyCore, if_pos hop]
    have hred : st.ondiscoverykey muxer dk =
        attachCore muxer { st with cores := setCore st.cores (toHex dk) c0 } dk c0 := by
      simp only [Store.ondiscoverykey, h, if_neg Bool.false_ne_true,
        Store.attachMaybe, if_neg hnc, hget, hready]
    rw [hred, attachCore, if_pos hm]
    show trackerGet (setCore st.cores (toHex dk) c0) (toHex dk) = some c0
    rw [trackerGet_setCore, hfind]
    rfl

/-- Witness for C6 at concrete stores (one closing, one with the announced
key present in storage but not yet registered). -/
theorem c6_witness :
    c6wClosingSt.ondiscoverykey 5 [1] = c6wClosingSt ∧
    (∃ c, trackerGet (c6wSt.ondiscoverykey 5 [1]).cores (toHex [1]) = some c ∧
      c.opened = true ∧ 5 ∈ c.attachedTo ∧
      (trackerGet c6wSt.cores (toHex [1]) = none → c.createIfMissing = false)) :=
  ⟨(c6_ondiscoverykey c6wClosingSt 5 [1]).1 rfl,
    (c6_ondiscoverykey c6wSt 5 [1]).2.2.1 rfl (Or.inr (by decide))⟩

/-- C5: closing the root closes every child store (whose own sessions all
reach closed), empties the core registry with every registry core reaching
closed, and closes the storage; the emitted trace is session closes, then
core closes (one per registry entry), then the storage close; and closing
a child store closes only that child's own sessions. -/
theorem c5_close_ordering (rootSid : Nat) (r r2 : RootState) (tr : List Ev)
    (h : rootClose rootSid r = (r2, tr)) :
    (∀ c ∈ r2.children, c.closed = true ∧ ∀ s ∈ c.sessions, s.closed = true) ∧
    r2.cores = [] ∧
    r2.closedCores.length = r.cores.length ∧
    (∀ co ∈ r2.closedCores, co.closed = true) ∧
    r2.storageClosed = true ∧
    (∃ sessEvs coreEvs,
      tr = sessEvs ++ coreEvs ++ [Ev.closeStorage] ∧
      (∀ e ∈ sessEvs, e.isSess = true) ∧
      coreEvs = r.cores.map fun p => Ev.closeCore p.2.cid) ∧
    (∀ c : ChildStore, (childClose c).1.closed = true ∧
      ∀ e ∈ (childClose c).2, ∃ s ∈ c.sessions, e = Ev.closeSess c.stid s.sid) := by
  have hr2 : r2 = (rootClose rootSid r).1 := by rw [h]
  have htr : tr = (rootClose rootSid r).2 := by rw [h]
  subst hr2
  subst htr
  refine ⟨?_, rfl, ?_, ?_, rfl, ?_, ?_⟩
  · intro c hc
    simp only [rootClose, List.map_map, List.mem_map] at hc
    obtain ⟨c0, _, rfl⟩ := hc
    refine ⟨rfl, ?_⟩
    intro s hs
    simp only [Function.comp, childClose, closeSessions, List.mem_map] at hs
    obtain ⟨s0, _, rfl⟩ := hs
    rfl
  · simp [rootClose]
  · intro co hco
    simp only [rootClose, List.mem_map] at hco
    obtain ⟨p, _, rfl⟩ := hco
    rfl
  · refine ⟨(closeSessions rootSid r.rootSessions).2 ++
      ((r.children.map childClose).map Prod.snd).flatten,
      r.cores.map (fun p => Ev.closeCore p.2.cid), by rw [rootClose], ?_, rfl⟩
    intro e he
    rcases List.mem_append.mp he with he1 | he2
    · simp only [closeSessions, List.mem_map] at he1
      obtain ⟨s, _, rfl⟩ := he1
      rfl
    · rw [List.mem_flatten] at he2
      obtain ⟨evs, hevs, hee⟩ := he2
      simp only [List.map_map, List.mem_map] at hevs
      obtain ⟨c0, _, rfl⟩ := hevs
      simp only [Function.comp, childClose, closeSessions, List.mem_map] at hee
      obtain ⟨s, _, rfl⟩ := hee
      rfl
  · intro c
    refine ⟨rfl, ?_⟩
    intro e he
    simp only [childClose, closeSessions, List.mem_map] at he
    obtain ⟨s, hs, rfl⟩ := he
    exact ⟨s, hs, rfl⟩

/-- Witness for C5 at a concrete root with one child, one session each and
one registry core. -/
theorem c5_witness :
    (rootClose 0 c5w).1.cores = [] ∧
    (rootClose 0 c5w).1.storageClosed = true ∧
    (∃ sessEvs coreEvs,
      (rootClose 0 c5w).2 = sessEvs ++ coreEvs ++ [Ev.closeStorage] ∧
      (∀ e ∈ sessEvs, e.isSess = true) ∧
      coreEvs = c5w.cores.map fun p => Ev.closeCore p.2.cid) := by
  have h := c5_close_ordering 0 c5w (rootClose 0 c5w).1 (rootClose 0 c5w).2 rfl
  exact ⟨h.2.1, h.2.2.2.2.1, h.2.2.2.2.2.1⟩

/-- Helper: under the invariant, registration is exactly `watchIndex ≠ -1`. -/
theorem ctinv_mem_iff (st : CTState) (hinv : CTinv st) (s : Nat) :
    s ∈ st.watching ↔ st.widx s ≠ -1 := by
  constructor
  · intro hs
    obtain ⟨i, hi, his⟩ := List.mem_iff_getElem.mp hs
    rw [← his, hinv.1 i hi]
    omega
  · intro hne
    by_contra hs
    exact hne (hinv.2 s hs)

/-- Helper: under the invariant, a registered store's `watchIndex` names a
position holding it. -/
theorem ctinv_widx_spec (st : CTState) (hinv : CTinv st) (s : Nat)
    (hs : s ∈ st.watching) :
    ∃ (k : Nat) (hk : k < st.watching.length),
      st.watching[k] = s ∧ st.widx s = (k : Int) := by
  obtain ⟨i, hi, his⟩ := List.mem_iff_getElem.mp hs
  refine ⟨i, hi, his, ?_⟩
  have h1 := hinv.1 i hi
  rwa [his] at h1

/-- Helper: under the invariant, a store occurs at a single position. -/
theorem ctinv_pos_unique (st : CTState) (hinv : CTinv st) (s : Nat)
    (i j : Nat) (hi : i < st.watching.length) (hj : j < st.watching.length)
    (his : st.watching[i] = s) (hjs : st.watching[j] = s) : i = j := by
  have h1 := hinv.1 i hi
  have h2 := hinv.1 j hj
  rw [his] at h1
  rw [hjs] at h2
  rw [h1] at h2
  omega

/-- Helper: `ctWatch` is a no-op on a registered store, preserves the
invariant, and registers an unregistered store at the tail with the right
index. -/
theorem ctWatch_spec (st : CTState) (s : Nat) (hinv : CTinv st) :
    (s ∈ st.watching → ctWatch st s = st) ∧ CTinv (ctWatch st s) ∧
    (s ∉ st.watching → (ctWatch st s).watching = st.watching ++ [s] ∧
      (ctWatch st s).widx s = (st.watching.length : Int)) := by
  refine ⟨?_, ?_, ?_⟩
  · intro hs
    rw [ctWatch, if_pos ((ctinv_mem_iff st hinv s).mp hs)]
  · by_cases hreg : st.widx s = -1
    · have hneg : ¬(st.widx s ≠ -1) := fun hc => hc hreg
      have hsnot : s ∉ st.watching := fun hs =>
        (ctinv_mem_iff st hinv s).mp hs hreg
      rw [ctWatch, if_neg hneg]
      constructor
      · intro i hi
        have hlen : (st.watching ++ [s]).length = st.watching.length + 1 := by
          simp
        by_cases hin : i < st.watching.length
        · rw [List.getElem_append_left hin]
          have htmem : st.watching[i] ∈ st.watching := List.getElem_mem hin
          have htne : st.watching[i] ≠ s := fun he => hsnot (he ▸ htmem)
          show (if st.watching[i] = s then ((st.watching.length : Int))
            else st.widx st.watching[i]) = (i : Int)
          rw [if_neg htne]
          exact hinv.1 i hin
        · rw [hlen] at hi
          have hieq : i = st.watching.length := by omega
          subst hieq
          rw [List.getElem_append_right (Nat.le_refl _)]
          simp
      · intro t htnot
        rw [List.mem_append, not_or] at htnot
        obtain ⟨ht1, ht2⟩ := htnot
        have htne : t ≠ s := by simpa using ht2
        show (if t = s then ((st.watching.length : Int)) else st.widx t) = -1
        rw [if_neg htne]
        exact hinv.2 t ht1
    · rw [ctWatch, if_pos hreg]
      exact hinv
  · intro hsnot
    have hreg : st.widx s = -1 := hinv.2 s hsnot
    have hneg : ¬(st.widx s ≠ -1) := fun hc => hc hreg
    rw [ctWatch, if_neg hneg]
    exact ⟨rfl, by simp⟩

set_option maxHeartbeats 2000000 in
/-- Helper: `ctUnwatch` preserves the invariant, removes exactly the given
store (resetting its index to −1) and keeps every other store. -/
theorem ctUnwatch_spec (st : CTState) (s : Nat) (hinv : CTinv st) :
    CTinv (ctUnwatch st s) ∧ s ∉ (ctUnwatch st s).watching ∧
    (ctUnwatch st s).widx s = -1 ∧
    ∀ t, t ≠ s → (t ∈ (ctUnwatch st s).watching ↔ t ∈ st.watching) := by
  by_cases hreg : st.widx s = -1
  · rw [ctUnwatch, if_pos hreg]
    exact ⟨hinv, fun hs => (ctinv_mem_iff st hinv s).mp hs hreg, hreg,
      fun t _ => Iff.rfl⟩
  · have hsmem : s ∈ st.watching := (ctinv_mem_iff st hinv s).mpr hreg
    have hnnil : st.watching ≠ [] := List.ne_nil_of_mem hsmem
    have hpos : 0 < st.watching.length := List.length_pos.mpr hnnil
    obtain ⟨k, hk, hgetk, hwidxk⟩ := ctinv_widx_spec st hinv s hsmem
    have hlast : st.watching.getLast? = some (st.watching.getLast hnnil) :=
      List.getLast?_eq_getLast st.watching hnnil
    have hheadeq : st.watching.getLast hnnil = st.watching[st.watching.length - 1] :=
      List.getLast_eq_getElem st.watching hnnil
    have hdl : st.watching.dropLast.length = st.watching.length - 1 := by simp
    rw [ctUnwatch, if_neg hreg, hlast]
    dsimp only
    by_cases hhs : st.watching.getLast hnnil = s
    · rw [if_pos hhs]
      have hlastk : st.watching[st.watching.length - 1] = s := by
        rw [← hheadeq]
        exact hhs
      have hkn : k = st.watching.length - 1 :=
        ctinv_pos_unique st hinv s k (st.watching.length - 1) hk (by omega)
          hgetk hlastk
      have hmem_dl : ∀ t : Nat, t ∈ st.watching.dropLast ↔
          ∃ (j : Nat) (hj : j < st.watching.length - 1), st.watching[j] = t := by
        intro t
        rw [List.mem_iff_getElem]
        constructor
        · rintro ⟨j, hj, hjt⟩
          have hj2 : j < st.watching.length - 1 := by rw [hdl] at hj; exact hj
          refine ⟨j, hj2, ?_⟩
          rw [← List.getElem_dropLast st.watching j hj]
          exact hjt
        · rintro ⟨j, hj, hjt⟩
          have hj2 : j < st.watching.dropLast.length := by rw [hdl]; exact hj
          refine ⟨j, hj2, ?_⟩
          rw [List.getElem_dropLast]
          exact hjt
      refine ⟨⟨?_, ?_⟩, ?_, ?_, ?_⟩
      · intro j hj
        have hj2 : j < st.watching.length - 1 := by rw [hdl] at hj; exact hj
        have hjget : st.watching.dropLast[j] = st.watching[j] :=
          List.getElem_dropLast st.watching j hj
        have htne : st.watching[j] ≠ s := by
          intro he
          have := ctinv_pos_unique st hinv s j k (by omega) hk he hgetk
          omega
        show (if st.watching.dropLast[j] = s then (-1 : Int)
          else st.widx st.watching.dropLast[j]) = (j : Int)
        rw [hjget, if_neg htne]
        exact hinv.1 j (by omega)
      · intro t htnot
        show (if t = s then (-1 : Int) else st.widx t) = -1
        by_cases hts : t = s
        · rw [if_pos hts]
        · rw [if_neg hts]
          apply hinv.2 t
          intro htmem
          obtain ⟨j, hj, hjt⟩ := List.mem_iff_getElem.mp htmem
          by_cases hj1 : j = st.watching.length - 1
          · subst hj1
            exact hts (hjt.symm.trans hlastk)
          · exact htnot ((hmem_dl t).mpr ⟨j, by omega, hjt⟩)
      · intro hs
        obtain ⟨j, hj, hjt⟩ := (hmem_dl s).mp hs
        have := ctinv_pos_unique st hinv s j k (by omega) hk hjt hgetk
        omega
      · show (if s = s then (-1 : Int) else st.widx s) = -1
        rw [if_pos rfl]
      · intro t hts
        constructor
        · intro ht
          obtain ⟨j, hj, hjt⟩ := (hmem_dl t).mp ht
          exact List.mem_iff_getElem.mpr ⟨j, by omega, hjt⟩
        · intro ht
          obtain ⟨j, hj, hjt⟩ := List.mem_iff_getElem.mp ht
          by_cases hj1 : j = st.watching.length - 1
          · exfalso
            subst hj1
            exact hts (hjt.symm.trans hlastk)
          · exact (hmem_dl t).mpr ⟨j, by omega, hjt⟩
    · rw [if_neg hhs]
      have hkn : k ≠ st.watching.length - 1 := by
        intro hkeq
        apply hhs
        rw [hheadeq]
        subst hkeq
        exact hgetk
      have hklt : k < st.watching.length - 1 := by omega
      have htonat : (st.widx s).toNat = k := by
        rw [hwidxk]
        exact Int.toNat_ofNat k
      rw [htonat]
      have hLlen : (st.watching.dropLast.set k (st.watching.getLast hnnil)).length =
          st.watching.length - 1 := by
        rw [List.length_set, hdl]
      have hgetL : ∀ (j : Nat)
          (hjL : j < (st.watching.dropLast.set k (st.watching.getLast hnnil)).length)
          (hj : j < st.watching.length - 1),
          (st.watching.dropLast.set k (st.watching.getLast hnnil))[j] =
          if k = j then st.watching.getLast hnnil else st.watching[j] := by
        intro j hjL hj
        have hj2 : j < st.watching.dropLast.length := by rw [hdl]; exact hj
        rw [List.getElem_set]
        by_cases hkj : k = j
        · rw [if_pos hkj, if_pos hkj]
        · rw [if_neg hkj, if_neg hkj]
          exact List.getElem_dropLast st.watching j hj2
      have hmemL : ∀ t : Nat,
          t ∈ st.watching.dropLast.set k (st.watching.getLast hnnil) ↔
          ∃ (j : Nat) (hj : j < st.watching.length - 1),
            (if k = j then st.watching.getLast hnnil else st.watching[j]) = t := by
        intro t
        rw [List.mem_iff_getElem]
        constructor
        · rintro ⟨j, hj, hjt⟩
          have hj2 : j < st.watching.length - 1 := by rw [hLlen] at hj; exact hj
          refine ⟨j, hj2, ?_⟩
          rw [← hgetL j hj hj2]
          exact hjt
        · rintro ⟨j, hj, hjt⟩
          have hjL : j < (st.watching.dropLast.set k (st.watching.getLast hnnil)).length := by
            rw [hLlen]
            exact hj
          refine ⟨j, hjL, ?_⟩
          rw [hgetL j hjL hj]
          exact hjt
      have hheadne : ∀ (j : Nat) (hj : j < st.watching.length - 1),
          st.watching[j] ≠ st.watching.getLast hnnil := by
        intro j hj he
        have hn1 : st.watching.length - 1 < st.watching.length := by omega
        have he2 : st.watching[j] = st.watching[st.watching.length - 1] := by
          rw [he]
          exact hheadeq
        have := ctinv_pos_unique st hinv (st.watching[st.watching.length - 1])
          j (st.watching.length - 1) (by omega) (by omega) he2 rfl
        omega
      refine ⟨⟨?_, ?_⟩, ?_, ?_, ?_⟩
      · intro j hj
        have hj2 : j < st.watching.length - 1 := by rw [hLlen] at hj; exact hj
        by_cases hkj : k = j
        · have hjhead : (st.watching.dropLast.set k (st.watching.getLast hnnil))[j] =
              st.watching.getLast hnnil := by
            rw [hgetL j hj hj2, if_pos hkj]
          rw [hjhead]
          show (if st.watching.getLast hnnil = s then (-1 : Int)
            else if st.watching.getLast hnnil = st.watching.getLast hnnil
            then st.widx s else st.widx (st.watching.getLast hnnil)) = (j : Int)
          rw [if_neg hhs, if_pos rfl, hwidxk]
          omega
        · have hjget : (st.watching.dropLast.set k (st.watching.getLast hnnil))[j] =
              st.watching[j] := by
            rw [hgetL j hj hj2, if_neg hkj]
          rw [hjget]
          have htns : st.watching[j] ≠ s := by
            intro he
            exact hkj (ctinv_pos_unique st hinv s k j hk (by omega) hgetk he)
          have htnh : st.watching[j] ≠ st.watching.getLast hnnil :=
            hheadne j hj2
          show (if st.watching[j] = s then (-1 : Int)
            else if st.watching[j] = st.watching.getLast hnnil
            then st.widx s else st.widx st.watching[j]) = (j : Int)
          rw [if_neg htns, if_neg htnh]
          exact hinv.1 j (by omega)
      · intro t htnot
        show (if t = s then (-1 : Int)
          else if t = st.watching.getLast hnnil then st.widx s else st.widx t) = -1
        by_cases hts : t = s
        · rw [if_pos hts]
        · rw [if_neg hts]
          by_cases hth : t = st.watching.getLast hnnil
          · exfalso
            apply htnot
            refine (hmemL t).mpr ⟨k, hklt, ?_⟩
            rw [if_pos rfl]
            exact hth.symm
          · rw [if_neg hth]
            apply hinv.2 t
            intro htmem
            obtain ⟨j, hj, hjt⟩ := List.mem_iff_getElem.mp htmem
            by_cases hjk : j = k
            · subst hjk
              exact hts (hjt.symm.trans hgetk)
            · by_cases hj1 : j = st.watching.length - 1
              · subst hj1
                exact hth (hjt.symm.trans hheadeq.symm)
              · exact htnot ((hmemL t).mpr ⟨j, by omega,
                  by rw [if_neg (by omega : ¬ k = j)]; exact hjt⟩)
      · intro hs
        obtain ⟨j, hj, hjt⟩ := (hmemL s).mp hs
        by_cases hkj : k = j
        · rw [if_pos hkj] at hjt
          exact hhs hjt
        · rw [if_neg hkj] at hjt
          exact hkj (ctinv_pos_unique st hinv s k j hk (by omega) hgetk hjt)
      · show (if s = s then (-1 : Int)
          else if s = st.watching.getLast hnnil then st.widx s else st.widx s) = -1
        rw [if_pos rfl]
      · intro t hts
        constructor
        · intro ht
          obtain ⟨j, hj, hjt⟩ := (hmemL t).mp ht
          by_cases hkj : k = j
          · rw [if_pos hkj] at hjt
            rw [← hjt]
            exact List.getLast_mem hnnil
          · rw [if_neg hkj] at hjt
            exact List.mem_iff_getElem.mpr ⟨j, by omega, hjt⟩
        · intro ht
          obtain ⟨j, hj, hjt⟩ := List.mem_iff_getElem.mp ht
          by_cases hjk : j = k
          · exfalso
            subst hjk
            exact hts (hjt.symm.trans hgetk)
          · by_cases hj1 : j = st.watching.length - 1
            · refine (hmemL t).mpr ⟨k, hklt, ?_⟩
              rw [if_pos rfl, hheadeq]
              subst hj1
              exact hjt
            · refine (hmemL t).mpr ⟨j, by omega, ?_⟩
              rw [if_neg (by omega : ¬ k = j)]
              exact hjt

/-- C10: under the tracker invariant (each registered store's `watchIndex`
equals its position, −1 otherwise), `watch` is a no-op for a registered
store and preserves the invariant; `unwatch` preserves the invariant,
removes exactly the given store (index reset to −1) and keeps every other
store; and a store registers with the tracker only when its first watch
callback is added and deregisters exactly when its last callback is
removed. -/
theorem c10_watch_registry (st : CTState) (s : Nat) (tr : CTState)
    (ws : List Nat) (sid fn : Nat) (hinv : CTinv st) :
    (s ∈ st.watching → ctWatch st s = st) ∧
    CTinv (ctWatch st s) ∧
    CTinv (ctUnwatch st s) ∧
    s ∉ (ctUnwatch st s).watching ∧
    (ctUnwatch st s).widx s = -1 ∧
    (∀ t, t ≠ s → (t ∈ (ctUnwatch st s).watching ↔ t ∈ st.watching)) ∧
    (storeWatch tr none sid fn).1 = ctWatch tr sid ∧
    (storeWatch tr (some ws) sid fn).1 = tr ∧
    (storeUnwatch tr none sid fn).1 = tr ∧
    ((ws.erase fn).isEmpty = true →
      (storeUnwatch tr (some ws) sid fn).1 = ctUnwatch tr sid) ∧
    ((ws.erase fn).isEmpty = false →
      (storeUnwatch tr (some ws) sid fn).1 = tr) := by
  obtain ⟨h1, h2, _⟩ := ctWatch_spec st s hinv
  obtain ⟨h3, h4, h5, h6⟩ := ctUnwatch_spec st s hinv
  refine ⟨h1, h2, h3, h4, h5, h6, rfl, rfl, rfl, ?_, ?_⟩
  · intro he
    simp [storeUnwatch, he]
  · intro he
    simp [storeUnwatch, he]

/-- Witness for C10 at a concrete tracker with three registered stores. -/
theorem c10_witness :
    ctWatch c10wTr 1 = c10wTr ∧
    CTinv (ctUnwatch c10wTr 1) ∧
    (1 : Nat) ∉ (ctUnwatch c10wTr 1).watching ∧
    (ctUnwatch c10wTr 1).widx 1 = -1 := by
  have h := c10_watch_registry c10wTr 1 c10wTr [5] 0 7 (by
    constructor
    · decide
    · intro t ht
      simp only [c10wTr, List.mem_cons, List.not_mem_nil, or_false, not_or] at ht
      obtain ⟨h0, h1, h2⟩ := ht
      show (if t < 3 then (t : Int) else -1) = -1
      rw [if_neg (by omega)])
  exact ⟨h.1 (by decide), h.2.2.1, h.2.2.2.1, h.2.2.2.2.1⟩
